import Mathlib

/-!
Shallow embedding of `src/csvimporter.py` (sawadyrr5/CsvImporter).

Python values flowing through the importer are either strings (cells read
from the csv module) or `None` (unset manual-column values), so a cell is
modelled as `Option String` (`none` = Python `None`).  Python truthiness of
names (`if name:`) treats both `False` (the masked-column marker) and the
empty string as falsy, so a reconciled name is `Option String` with `none`
standing for the literal `False` marker and truthiness tested explicitly.

Mutation in the source is made explicit by state passing:
`Recordset.names` aliases and extends the csv header list in place (the
`elif self._csv.header:` branch returns the header object itself and then
`extend`s it), and `_convert_insert_sql_values` appends manual values to the
row object stored in the `Csv`.  Both effects are threaded through an
`RState`.  Exceptions (`CsvImporterError`, `StopIteration`, `IndexError`)
are modelled with `Except String`.
-/

/-- Target table: name plus `cursor.description` reduced to the fields the
importer reads, `(name, type_code)` per column. -/
structure TableDesc where
  name : String
  cols : List (String × Int)
  deriving DecidableEq

/-- One manually added column (`Recordset.add_column` dict). -/
structure AddCol where
  option : String
  name : String
  type_code : Int
  value : Option String
  deriving DecidableEq

/-- State of a `Recordset` together with the mutable pieces of its `Csv`
(`_header` and `_rows`, both mutated in place by the source). -/
structure RState where
  header : Option (List String)
  rows : List (List (Option String))
  table : TableDesc
  mapping : Option (List (String × String))
  masks : List Bool
  addCols : List AddCol
  deriving DecidableEq

/-- State of a `Csv` object right after `__init__`. -/
structure CsvS where
  header : Option (List String)
  rows : List (List String)
  deriving DecidableEq

deriving instance DecidableEq for Except

/-- Python truthiness of a reconciled name entry: `False` (here `none`) and
the empty string are falsy. -/
def truthyName : Option String → Bool
  | none => false
  | some s => s != ""

/-- Python truthiness of `self._csv.header` (`None` and `[]` are falsy). -/
def headerTruthy : Option (List String) → Bool
  | none => false
  | some h => !h.isEmpty

/-- Python truthiness of `self._mapping` (`None` and `{}` are falsy). -/
def mappingTruthy : Option (List (String × String)) → Bool
  | none => false
  | some m => !m.isEmpty

/-- Dict lookup `mapping[k]` / `k in mapping.keys()` for the column-name
mapping (keys of a Python dict are unique, so first match suffices). -/
def alookup (m : List (String × String)) (k : String) : Option String :=
  (m.find? (fun p => p.1 == k)).map Prod.snd

/-- The list `rst_names` computed by `Recordset.names` lines 172-179:
mapping branch, header branch, or table-description branch, then the manual
column names appended. -/
def rstNamesList (s : RState) : List (Option String) :=
  (if mappingTruthy s.mapping then
    ((s.header.getD []).zip s.masks).map
      (fun p => if p.2 then alookup (s.mapping.getD []) p.1 else none)
  else if headerTruthy s.header then
    (s.header.getD []).map some
  else
    s.table.cols.map (fun c => some c.1))
  ++ s.addCols.map (fun c => some c.name)

/-- `[name for name in rst_names if name]`: the truthy names, in order. -/
def truthyNamesOf (ns : List (Option String)) : List String :=
  ns.filterMap (fun n => if truthyName n then n else none)

/-- The duplicate test on line 182:
`any(rst_names.count(name) > 1 for name in rst_names if name)`. -/
def namesHasDup (ns : List (Option String)) : Bool :=
  ns.any (fun n => truthyName n && decide (1 < ns.count n))

/-- State after one evaluation of `Recordset.names`: in the
`elif self._csv.header:` branch `rst_names` IS the header list object, so
`rst_names.extend(...)` appends the manual names to the csv header itself. -/
def namesPost (s : RState) : RState :=
  if !mappingTruthy s.mapping && headerTruthy s.header then
    { s with header := some ((s.header.getD []) ++ s.addCols.map (fun c => c.name)) }
  else s

/-- `Recordset.names` (lines 170-186): computes `rst_names`, mutates the
header in the aliasing branch, raises `CsvImporterError` on duplicates. -/
def namesM (s : RState) : Except String (List (Option String) × RState) :=
  if namesHasDup (rstNamesList s) then
    .error ("Duplicate column name. " ++ String.intercalate "," (truthyNamesOf (rstNamesList s)))
  else
    .ok (rstNamesList s, namesPost s)

/-- Lookup in the dict built by `Recordset.type_codes`: table columns first,
then `update`d with the manual columns, so the LAST binding of a key wins. -/
def tcLookup (l : List (String × Int)) (k : String) : Option Int :=
  (l.reverse.find? (fun p => p.1 == k)).map Prod.snd

/-- `Recordset.type_codes` (lines 188-196): `table_tc[column]` when present,
the Python `False` marker (here `none`) otherwise. -/
def typeCodesM (s : RState) : Except String (List (Option Int) × RState) :=
  match namesM s with
  | .error e => .error e
  | .ok (ns, s1) =>
    .ok (ns.map (fun n =>
      match n with
      | some nm => tcLookup (s.table.cols ++ s.addCols.map (fun c => (c.name, c.type_code))) nm
      | none => none), s1)

/-- `type_code in Recordset.ESCAPES` with `ESCAPES = (1, 4)`; the Python
`False` type-code marker is in no tuple of ints. -/
def escFlag : Option Int → Bool
  | some c => c == 1 || c == 4
  | none => false

/-- An entry of the list returned by `Recordset.escapes`: the comprehension
produces booleans, but `esc.extend(...)` then appends the manual columns'
raw integer type codes, so the list mixes both. -/
abbrev EscE := Sum Bool Int

/-- Python truthiness of an `escapes` entry (a bool, or a raw int type code
where any nonzero int is truthy). -/
def truthyEsc : EscE → Bool
  | .inl b => b
  | .inr n => n != 0

/-- `Recordset.escapes` (lines 198-202). -/
def escapesM (s : RState) : Except String (List EscE × RState) :=
  match typeCodesM s with
  | .error e => .error e
  | .ok (tcs, s1) =>
    .ok (tcs.map (fun tc => Sum.inl (escFlag tc)) ++ s.addCols.map (fun c => Sum.inr c.type_code), s1)

/-- `Recordset._escape` (lines 223-230). -/
def _escape (data : Option String) (is_escape : Bool) : String :=
  match data with
  | none => "NULL"
  | some s => if s == "" then "NULL" else if is_escape then "'" ++ s ++ "'" else s

/-- Three-way zip, truncating at the shortest list like Python `zip`. -/
def zip3 {α β γ : Type} : List α → List β → List γ → List (α × β × γ)
  | a :: as, b :: bs, c :: cs => (a, b, c) :: zip3 as bs cs
  | _, _, _ => []

/-- The values appended to a row by `_convert_insert_sql_values` lines
215-217: the `value` of every manual column whose option is `'f'`. -/
def fVals (s : RState) : List (Option String) :=
  (s.addCols.filter (fun c => c.option == "f")).map (fun c => c.value)

/-- `Recordset._convert_insert_sql_values` (lines 214-221): appends the
`'f'` manual values to the row object in place, then renders
`zip(row, self.names, self.escapes)` filtered on truthy names.  The two
property reads re-run `names` (hence re-mutate the header when aliased). -/
def convertM (s : RState) (row : List (Option String)) :
    Except String (String × List (Option String) × RState) :=
  let row2 := row ++ fVals s
  match namesM s with
  | .error e => .error e
  | .ok (ns, s1) =>
    match escapesM s1 with
    | .error e => .error e
    | .ok (es, s2) =>
      .ok ("(" ++ String.intercalate ","
            ((zip3 row2 ns es).filterMap
              (fun t => if truthyName t.2.1 then some (_escape t.1 (truthyEsc t.2.2)) else none)) ++ ")",
           row2, s2)

/-- Renders every row in order, threading the state and collecting the
mutated row objects (the `Csv._rows` entries after the appends). -/
def processRows : RState → List (List (Option String)) →
    Except String (List String × List (List (Option String)) × RState)
  | s, [] => .ok ([], [], s)
  | s, r :: rs =>
    match convertM s r with
    | .error e => .error e
    | .ok (t, r2, s1) =>
      match processRows s1 rs with
      | .error e => .error e
      | .ok (ts, rs2, s2) => .ok (t :: ts, r2 :: rs2, s2)

/-- Structural worker for `_chunk`; the fuel argument only bounds the
recursion depth (one chunk of a positive size consumes at least one element,
so fuel `l.length` is always enough) and never changes the result. -/
def chunkGo {α : Type} (n : Nat) : List α → Nat → List (List α)
  | [], _ => []
  | _ :: _, 0 => []
  | a :: t, fuel + 1 =>
    if n = 0 then [] else (a :: t).take n :: chunkGo n ((a :: t).drop n) fuel

/-- `_chunk` (lines 234-237): consecutive groups of `n` by index (`i // n`),
the last group possibly shorter.  (Python raises `ZeroDivisionError` for
`n = 0`; the importer only calls it with the positive chunk size, so the
`n = 0` result is never consulted.) -/
def chunk {α : Type} (n : Nat) (l : List α) : List (List α) :=
  chunkGo n l l.length

lemma chunkGo_fuel {α : Type} (n : Nat) :
    ∀ (fuel1 : Nat) (l : List α) (fuel2 : Nat), l.length ≤ fuel1 → l.length ≤ fuel2 →
      chunkGo n l fuel1 = chunkGo n l fuel2 := by
  intro fuel1
  induction fuel1 with
  | zero =>
    intro l fuel2 h1 _
    have : l = [] := by
      cases l with
      | nil => rfl
      | cons a t => simp at h1
    subst this
    cases fuel2 <;> rfl
  | succ f1 ih =>
    intro l fuel2 h1 h2
    cases l with
    | nil => cases fuel2 <;> rfl
    | cons a t =>
      cases fuel2 with
      | zero => simp at h2
      | succ f2 =>
        simp only [chunkGo]
        rcases eq_or_ne n 0 with rfl | hn
        · simp
        · rw [if_neg hn, if_neg hn]
          have hd : ((a :: t).drop n).length ≤ f1 := by
            simp only [List.length_drop, List.length_cons] at *
            omega
          have hd2 : ((a :: t).drop n).length ≤ f2 := by
            simp only [List.length_drop, List.length_cons] at *
            omega
          rw [ih ((a :: t).drop n) f2 hd hd2]

lemma chunk_nil {α : Type} (n : Nat) : chunk n ([] : List α) = [] := rfl

lemma chunk_cons {α : Type} (n : Nat) (l : List α) (hl : l ≠ []) (hn : n ≠ 0) :
    chunk n l = l.take n :: chunk n (l.drop n) := by
  cases l with
  | nil => exact absurd rfl hl
  | cons a t =>
    show chunkGo n (a :: t) (t.length + 1) = _
    simp only [chunkGo, if_neg hn]
    congr 1
    exact chunkGo_fuel n t.length ((a :: t).drop n) ((a :: t).drop n).length
      (by simp only [List.length_drop, List.length_cons]; omega) (le_refl _)

/-- `Recordset.build_insert_sql` (lines 204-212), fully consumed: one
`names` read for the column clause, then every row rendered, every chunk
joined into one `INSERT INTO <table> (cols) VALUES(...),(...)` statement,
and the mutated rows written back to the csv state. -/
def build_insert_sql (s : RState) (multiple : Nat) : Except String (List String × RState) :=
  match namesM s with
  | .error e => .error e
  | .ok (ns, s1) =>
    match processRows s1 s1.rows with
    | .error e => .error e
    | .ok (ts, rows2, s2) =>
      .ok ((chunk multiple ts).map (fun c =>
        "INSERT INTO " ++ s.table.name ++ " (" ++
          String.intercalate "," ((truthyNamesOf ns).map (fun nm => "[" ++ nm ++ "]")) ++ ")" ++
          " VALUES" ++ String.intercalate "," c),
        { s2 with rows := rows2 })

/-- `Recordset.add_column` / `CsvImporter.add_column`. -/
def add_column (s : RState) (opt nm : String) (type_code : Int) (value : Option String) : RState :=
  { s with addCols := s.addCols ++ [{ option := opt, name := nm, type_code := type_code, value := value }] }

/-- `Csv.__init__` (lines 94-109): skip `skiprows` records (`StopIteration`
if the file has fewer), then split off the header when requested
(`IndexError` when no record is left). -/
def csvInit (records : List (List String)) (hasHeader : Bool) (skiprows : Nat) :
    Except String CsvS :=
  if records.length < skiprows then .error "StopIteration"
  else if hasHeader then
    match records.drop skiprows with
    | [] => .error "IndexError"
    | h :: t => .ok { header := some h, rows := t }
  else .ok { header := none, rows := records.drop skiprows }

/-- `Csv.rowcount`: `len(self._rows)` fixed at `__init__` time. -/
def CsvS.rowcount (c : CsvS) : Nat := c.rows.length

/-- `Recordset.__init__` (lines 148-158): with a truthy mapping the masks
come from membership of each header entry in the mapping; otherwise
`[True] * len(self.names)` evaluates `names` once (no manual columns yet,
so no mutation, but a duplicate header already raises here). -/
def recordsetInit (c : CsvS) (t : TableDesc) (mapping : Option (List (String × String))) :
    Except String RState :=
  let base : RState := { header := c.header, rows := c.rows.map (fun r => r.map some),
                         table := t, mapping := mapping, masks := [], addCols := [] }
  if mappingTruthy mapping then
    .ok { base with masks := (c.header.getD []).map (fun col => (alookup (mapping.getD []) col).isSome) }
  else
    match namesM base with
    | .error e => .error e
    | .ok (ns, s1) => .ok { s1 with masks := List.replicate ns.length true }

/-- `CsvImporter.read_csv` (lines 59-64) with the base-class guard
(lines 30-32): the configuration check runs before the file is opened or
the table probed, so both collaborators are passed as `Option` (`none` =
missing/failing) and are only consulted after the guard. -/
def read_csv (fileRecords : Option (List (List String))) (tableDesc : Option TableDesc)
    (header : Bool) (mapping : Option (List (String × String))) (skiprows : Nat) :
    Except String RState :=
  if header == false && mappingTruthy mapping then
    .error "Can not set mapping if header is not True"
  else
    match fileRecords with
    | none => .error "SourceReadError"
    | some recs =>
      match csvInit recs header skiprows with
      | .error e => .error e
      | .ok c =>
        match tableDesc with
        | none => .error "SchemaProbeError"
        | some t => recordsetInit c t mapping

/-- Discriminator used to state that a concrete run succeeds. -/
def exceptOk {ε α : Type} : Except ε α → Bool
  | .ok _ => true
  | .error _ => false

/-! ## Helper lemmas about the reconciliation queries -/

lemma count_truthyNamesOf (ns : List (Option String)) (s : String) (hs : s ≠ "") :
    (truthyNamesOf ns).count s = ns.count (some s) := by
  induction ns with
  | nil => rfl
  | cons n t ih =>
    cases n with
    | none =>
      simpa [truthyNamesOf, truthyName, List.filterMap_cons, List.count_cons] using ih
    | some v =>
      by_cases hv : v = ""
      · subst hv
        simpa [truthyNamesOf, truthyName, List.filterMap_cons, List.count_cons, Ne.symm hs]
          using ih
      · simp only [truthyNamesOf, truthyName, List.filterMap_cons] at *
        simp only [bne_iff_ne, ne_eq, hv, not_false_eq_true, if_true, ite_true,
          List.count_cons, ih]
        by_cases hvs : v = s <;> simp [hvs]

lemma nodup_iff_count_le_one_str (l : List String) :
    l.Nodup ↔ ∀ a : String, l.count a ≤ 1 := by
  induction l with
  | nil => simp
  | cons x t ih =>
    simp only [List.nodup_cons, ih]
    constructor
    · rintro ⟨hx, h⟩ a
      rw [List.count_cons]
      rcases eq_or_ne x a with rfl | hxa
      · rw [List.count_eq_zero.mpr hx]
        simp
      · have ha := h a
        have hb : (x == a) = false := by simpa using hxa
        rw [hb]
        simpa using ha
    · intro h
      constructor
      · intro hmem
        have hx := h x
        rw [List.count_cons] at hx
        simp only [beq_self_eq_true, if_true] at hx
        exact absurd (List.count_pos_iff.mpr hmem) (by omega)
      · intro a
        have ha := h a
        rw [List.count_cons] at ha
        split at ha <;> omega

lemma namesHasDup_iff (ns : List (Option String)) :
    namesHasDup ns = true ↔ ¬ (truthyNamesOf ns).Nodup := by
  unfold namesHasDup
  rw [List.any_eq_true]
  constructor
  · rintro ⟨n, hn, hp⟩
    simp only [Bool.and_eq_true, decide_eq_true_eq] at hp
    obtain ⟨ht, hc⟩ := hp
    cases n with
    | none => simp [truthyName] at ht
    | some v =>
      have hv : v ≠ "" := by simpa [truthyName] using ht
      rw [nodup_iff_count_le_one_str]
      push_neg
      refine ⟨v, ?_⟩
      rw [count_truthyNamesOf ns v hv]
      exact hc
  · intro h
    rw [nodup_iff_count_le_one_str] at h
    push_neg at h
    obtain ⟨v, hv⟩ := h
    have hmem : v ∈ truthyNamesOf ns := by
      rw [← List.count_pos_iff]
      omega
    have hv' : v ≠ "" ∧ some v ∈ ns := by
      unfold truthyNamesOf at hmem
      rw [List.mem_filterMap] at hmem
      obtain ⟨n, hn, hf⟩ := hmem
      cases n with
      | none => simp [truthyName] at hf
      | some w =>
        by_cases hw : w = ""
        · simp [truthyName, hw] at hf
        · simp only [truthyName, bne_iff_ne, ne_eq, hw, not_false_eq_true, ite_true,
            Option.some.injEq] at hf
          subst hf
          exact ⟨hw, hn⟩
    refine ⟨some v, hv'.2, ?_⟩
    have hcnt : 1 < ns.count (some v) := by
      rw [← count_truthyNamesOf ns v hv'.1]
      exact hv
    simp only [Bool.and_eq_true, decide_eq_true_eq]
    exact ⟨by simp [truthyName, hv'.1], hcnt⟩

lemma namesM_of_nodup (s : RState) (h : (truthyNamesOf (rstNamesList s)).Nodup) :
    namesM s = .ok (rstNamesList s, namesPost s) := by
  unfold namesM
  rw [if_neg]
  simp only [namesHasDup_iff, not_not]
  exact h

lemma namesM_of_dup (s : RState) (h : ¬ (truthyNamesOf (rstNamesList s)).Nodup) :
    namesM s = .error ("Duplicate column name. " ++
      String.intercalate "," (truthyNamesOf (rstNamesList s))) := by
  unfold namesM
  rw [if_pos ((namesHasDup_iff _).mpr h)]

lemma namesM_ok_elim {s : RState} {ns : List (Option String)} {s1 : RState}
    (h : namesM s = .ok (ns, s1)) : ns = rstNamesList s ∧ s1 = namesPost s := by
  unfold namesM at h
  split at h
  · cases h
  · simp only [Except.ok.injEq, Prod.mk.injEq] at h
    exact ⟨h.1.symm, h.2.symm⟩

lemma namesPost_fields (s : RState) :
    (namesPost s).rows = s.rows ∧ (namesPost s).table = s.table ∧
    (namesPost s).mapping = s.mapping ∧ (namesPost s).masks = s.masks ∧
    (namesPost s).addCols = s.addCols := by
  unfold namesPost
  split <;> exact ⟨rfl, rfl, rfl, rfl, rfl⟩

/-! ## C1, C3, C4, C5, C8 -/

/-- C1: for every (value, escape-flag) pair, `_escape` renders `NULL` when the
value is the null marker (`None`) or the empty string, the NULL rule taking
precedence over quoting (the flag `e` is arbitrary in the first two
conjuncts); otherwise with the flag set it wraps the value in single quotes
with no escaping of quote characters inside it, and with the flag unset it
returns the raw value unchanged. -/
theorem escape_rendering (e : Bool) (s : String) :
    _escape none e = "NULL" ∧ _escape (some "") e = "NULL" ∧
    (s ≠ "" → _escape (some s) true = "'" ++ s ++ "'" ∧ _escape (some s) false = s) := by
  refine ⟨rfl, by simp [_escape], fun hs => ?_⟩
  constructor <;> simp [_escape, hs]

/-- Witness for C1 at the spec's own example: the CHAR value `O'Brien` is
emitted inside the quotes unmodified, and the empty string renders `NULL`
even though the escape flag is set. -/
theorem escape_rendering_witness :
    _escape (some "O'Brien") true = "'O'Brien'" ∧ _escape (some "") true = "NULL" := by
  have h := escape_rendering true "O'Brien"
  refine ⟨?_, h.2.1⟩
  rw [(h.2.2 (by decide)).1]
  decide

/-- C3: querying `names` on a reconciled column list whose truthy (non-absent,
non-empty) names are not pairwise distinct raises `CsvImporterError` whose
message joins the full truthy name list — which therefore mentions every
occurrence of each duplicated name, both occurrences included; when the
truthy names are pairwise distinct, no error is raised and the query
returns the reconciled list. -/
theorem names_duplicate_detection (s : RState) :
    (¬ (truthyNamesOf (rstNamesList s)).Nodup →
        namesM s = .error ("Duplicate column name. " ++
          String.intercalate "," (truthyNamesOf (rstNamesList s)))) ∧
    ((truthyNamesOf (rstNamesList s)).Nodup →
        namesM s = .ok (rstNamesList s, namesPost s)) :=
  ⟨namesM_of_dup s, namesM_of_nodup s⟩

/-- The spec's duplicate example: header `["a", "a"]`, no mapping. -/
def W3 : RState :=
  { header := some ["a", "a"], rows := [], table := ⟨"t", []⟩,
    mapping := none, masks := [true, true], addCols := [] }

/-- Witness for C3: reconciling `["a", "a"]` with no mapping fails, and the
message mentions both occurrences of `a`. -/
theorem names_duplicate_detection_witness :
    namesM W3 = .error "Duplicate column name. a,a" := by
  have h := (names_duplicate_detection W3).1 (by decide)
  have hmsg : "Duplicate column name. " ++
      String.intercalate "," (truthyNamesOf (rstNamesList W3)) =
      "Duplicate column name. a,a" := by decide
  rw [h, hmsg]

/-- C4: `read_csv` with `header = False` and a truthy (non-`None`, non-empty)
mapping fails with the configuration error, for EVERY state of the file and
of the table — including an unreadable file (`none`) and a missing table
(`none`) — so the guard fires before any file is opened or any
schema-probing query is issued, and no `Csv`, `Table` or `Recordset` value
is constructed. -/
theorem read_csv_mapping_guard (fileRecords : Option (List (List String)))
    (tableDesc : Option TableDesc) (mapping : Option (List (String × String)))
    (skiprows : Nat) (hm : mappingTruthy mapping = true) :
    read_csv fileRecords tableDesc false mapping skiprows =
      .error "Can not set mapping if header is not True" := by
  unfold read_csv
  simp [hm]

/-- Witness for C4: missing file, missing table, non-empty mapping. -/
theorem read_csv_mapping_guard_witness :
    read_csv none none false (some [("a", "x")]) 0 =
      .error "Can not set mapping if header is not True" :=
  read_csv_mapping_guard none none (some [("a", "x")]) 0 (by decide)

lemma zip_map_if (h : List String) (f : String → Bool) (g : String → Option String) :
    ((h.zip (h.map f)).map (fun p => if p.2 then g p.1 else none)) =
      h.map (fun c => if f c then g c else none) := by
  induction h with
  | nil => rfl
  | cons a t ih => simp [ih]

/-- C5: with a truthy mapping, a source column that is not a key of the
mapping is masked (emitted as the absent marker `none`) while a mapped
column is emitted under its mapped name (`alookup m c` is `some` of the
mapped name exactly when `c` is a key); manual columns follow in their
addition order; and when the truthy names are distinct the `names` query
returns exactly this list without touching the state. -/
theorem mapping_masks_names (s : RState) (h : List String) (m : List (String × String))
    (hh : s.header = some h) (hm : s.mapping = some m) (hne : m ≠ [])
    (hmask : s.masks = h.map (fun c => (alookup m c).isSome)) :
    rstNamesList s = h.map (fun c => alookup m c) ++ s.addCols.map (fun c => some c.name) ∧
    ((truthyNamesOf (rstNamesList s)).Nodup →
      namesM s = .ok (h.map (fun c => alookup m c) ++ s.addCols.map (fun c => some c.name), s)) := by
  have hmt : mappingTruthy s.mapping = true := by
    rw [hm]
    simp [mappingTruthy, hne]
  have h1 : rstNamesList s =
      h.map (fun c => alookup m c) ++ s.addCols.map (fun c => some c.name) := by
    unfold rstNamesList
    rw [if_pos hmt, hh, hm, hmask]
    simp only [Option.getD_some]
    rw [zip_map_if h (fun c => (alookup m c).isSome) (fun c => alookup m c)]
    congr 1
    apply List.map_congr_left
    intro c _
    cases halc : alookup m c <;> simp
  refine ⟨h1, fun hnd => ?_⟩
  rw [namesM_of_nodup s hnd, h1]
  have hpost : namesPost s = s := by
    unfold namesPost
    rw [if_neg]
    simp [hmt]
  rw [hpost]

/-- The spec's masking example plus one manual column. -/
def W5 : RState :=
  { header := some ["a", "b", "c"], rows := [], table := ⟨"t", [("x", 1)]⟩,
    mapping := some [("a", "x")], masks := [true, false, false],
    addCols := [⟨"f", "m", 1, some "v"⟩] }

/-- Witness for C5: header `["a","b","c"]`, mapping `{"a": "x"}` gives
`names() = ["x", absent, absent]` followed by the manual column. -/
theorem mapping_masks_names_witness :
    rstNamesList W5 = [some "x", none, none, some "m"] ∧
    namesM W5 = .ok ([some "x", none, none, some "m"], W5) := by
  have h := mapping_masks_names W5 ["a", "b", "c"] [("a", "x")] rfl rfl (by decide) (by decide)
  have e1 : (["a", "b", "c"].map (fun c => alookup [("a", "x")] c)) ++
      W5.addCols.map (fun c => some c.name) = [some "x", none, none, some "m"] := by decide
  constructor
  · rw [h.1, e1]
  · rw [h.2 (by decide), e1]

/-- C8: whenever `Csv.__init__` succeeds, the first `k` records have been
consumed before header detection, the header (when requested) is the
`(k+1)`-th record of the file, the stored rows are the remaining records,
and the reported row count counts the data rows only — the file's record
count minus the `k` skipped records and minus the header row when present. -/
theorem csv_skiprows_and_rowcount (records : List (List String)) (hasHeader : Bool)
    (k : Nat) (c : CsvS) (h : csvInit records hasHeader k = .ok c) :
    (hasHeader = true → c.header = records[k]? ∧
        c.rows = (records.drop k).tail ∧ c.rowcount + k + 1 = records.length) ∧
    (hasHeader = false → c.header = none ∧
        c.rows = records.drop k ∧ c.rowcount + k = records.length) := by
  unfold csvInit at h
  split at h
  · cases h
  · rename_i hks
    push_neg at hks
    cases hasHeader with
    | false =>
      simp only [Bool.false_eq_true, if_false] at h
      injection h with h
      subst h
      constructor
      · intro hc
        exact absurd hc (by decide)
      · intro _
        refine ⟨rfl, rfl, ?_⟩
        simp only [CsvS.rowcount, List.length_drop]
        omega
    | true =>
      simp only [if_true] at h
      cases hd : records.drop k with
      | nil => rw [hd] at h; cases h
      | cons a t =>
        rw [hd] at h
        injection h with h
        subst h
        constructor
        · intro _
          refine ⟨?_, ?_, ?_⟩
          · rw [← List.head?_drop, hd]
            rfl
          · rfl
          · have hlen : (records.drop k).length = records.length - k :=
              List.length_drop k records
            rw [hd] at hlen
            simp only [List.length_cons] at hlen
            simp only [CsvS.rowcount]
            omega
        · intro hc
          exact absurd hc (by decide)

/-- Witness for C8: four records, one skipped, header on: the header is
record index 1 and the row count is 2 (= 4 - 1 skipped - 1 header). -/
theorem csv_skiprows_witness :
    csvInit [["s"], ["h"], ["d1"], ["d2"]] true 1 = .ok ⟨some ["h"], [["d1"], ["d2"]]⟩ ∧
    (⟨some ["h"], [["d1"], ["d2"]]⟩ : CsvS).header = [["s"], ["h"], ["d1"], ["d2"]][1]? ∧
    (⟨some ["h"], [["d1"], ["d2"]]⟩ : CsvS).rowcount + 1 + 1 = 4 := by
  have h := csv_skiprows_and_rowcount [["s"], ["h"], ["d1"], ["d2"]] true 1
    ⟨some ["h"], [["d1"], ["d2"]]⟩ (by decide)
  exact ⟨by decide, (h.1 rfl).1, (h.1 rfl).2.2⟩

/-! ## Elimination lemmas for the stateful operations -/

lemma fVals_congr {s1 s : RState} (h : s1.addCols = s.addCols) : fVals s1 = fVals s := by
  unfold fVals
  rw [h]

lemma typeCodesM_ok_elim {s : RState} {tcs : List (Option Int)} {s1 : RState}
    (h : typeCodesM s = .ok (tcs, s1)) :
    tcs = (rstNamesList s).map (fun n =>
      match n with
      | some nm => tcLookup (s.table.cols ++ s.addCols.map (fun c => (c.name, c.type_code))) nm
      | none => none) ∧ s1 = namesPost s := by
  unfold typeCodesM at h
  cases hns : namesM s with
  | error e => rw [hns] at h; cases h
  | ok p =>
    obtain ⟨ns, s'⟩ := p
    rw [hns] at h
    obtain ⟨hn, hs⟩ := namesM_ok_elim hns
    simp only [Except.ok.injEq, Prod.mk.injEq] at h
    refine ⟨?_, by rw [← h.2, hs]⟩
    rw [← h.1, hn]

lemma escapesM_ok_elim {s : RState} {es : List EscE} {s1 : RState}
    (h : escapesM s = .ok (es, s1)) :
    ∃ tcs, typeCodesM s = .ok (tcs, s1) ∧
      es = tcs.map (fun tc => Sum.inl (escFlag tc)) ++
        s.addCols.map (fun c => Sum.inr c.type_code) := by
  unfold escapesM at h
  cases htc : typeCodesM s with
  | error e => rw [htc] at h; cases h
  | ok p =>
    obtain ⟨tcs, s'⟩ := p
    rw [htc] at h
    simp only [Except.ok.injEq, Prod.mk.injEq] at h
    exact ⟨tcs, by rw [h.2], h.1.symm⟩

lemma convertM_ok_elim {s : RState} {row : List (Option String)} {t : String}
    {r2 : List (Option String)} {s2 : RState} (h : convertM s row = .ok (t, r2, s2)) :
    r2 = row ++ fVals s ∧ s2 = namesPost (namesPost s) ∧
    ∃ es, escapesM (namesPost s) = .ok (es, s2) ∧
      namesM s = .ok (rstNamesList s, namesPost s) ∧
      t = "(" ++ String.intercalate ","
            ((zip3 (row ++ fVals s) (rstNamesList s) es).filterMap
              (fun p => if truthyName p.2.1 then some (_escape p.1 (truthyEsc p.2.2)) else none))
          ++ ")" := by
  unfold convertM at h
  cases hns : namesM s with
  | error e => rw [hns] at h; cases h
  | ok p =>
    obtain ⟨ns, s1⟩ := p
    simp only [hns] at h
    cases hesc : escapesM s1 with
    | error e => simp only [hesc] at h; cases h
    | ok q =>
      obtain ⟨es, s'⟩ := q
      simp only [hesc] at h
      obtain ⟨hn, hs1⟩ := namesM_ok_elim hns
      simp only [Except.ok.injEq, Prod.mk.injEq] at h
      obtain ⟨ht, hr2, hs2⟩ := h
      subst hn hs1
      refine ⟨hr2.symm, ?_, es, ?_, rfl, ?_⟩
      · rw [← hs2]
        obtain ⟨tcs, htc, _⟩ := escapesM_ok_elim hesc
        exact (typeCodesM_ok_elim htc).2
      · rw [hs2] at hesc
        exact hesc
      · rw [← ht, hr2]

lemma processRows_ok_elim (rows : List (List (Option String))) :
    ∀ (s : RState) (ts : List String) (rows2 : List (List (Option String))) (s2 : RState),
      processRows s rows = .ok (ts, rows2, s2) →
      ts.length = rows.length ∧ rows2 = rows.map (fun r => r ++ fVals s) ∧
      s2.addCols = s.addCols ∧ s2.rows = s.rows ∧ s2.table = s.table ∧
      s2.mapping = s.mapping := by
  induction rows with
  | nil =>
    intro s ts rows2 s2 h
    simp only [processRows, Except.ok.injEq, Prod.mk.injEq] at h
    obtain ⟨h1, h2, h3⟩ := h
    subst h3
    exact ⟨by rw [← h1]; rfl, by rw [← h2]; rfl, rfl, rfl, rfl, rfl⟩
  | cons r rs ih =>
    intro s ts rows2 s2 h
    simp only [processRows] at h
    cases hc : convertM s r with
    | error e => rw [hc] at h; cases h
    | ok p =>
      obtain ⟨t, r2, s1⟩ := p
      simp only [hc] at h
      cases hp : processRows s1 rs with
      | error e => simp only [hp] at h; cases h
      | ok q =>
        obtain ⟨ts', rs2, s2'⟩ := q
        simp only [hp] at h
        simp only [Except.ok.injEq, Prod.mk.injEq] at h
        obtain ⟨h1, h2, h3⟩ := h
        obtain ⟨hr2, hs1, _⟩ := convertM_ok_elim hc
        obtain ⟨ih1, ih2, ih3, ih4, ih5, ih6⟩ := ih s1 ts' rs2 s2' hp
        have hpf1 := namesPost_fields s
        have hpf2 := namesPost_fields (namesPost s)
        have haddeq : s1.addCols = s.addCols := by
          rw [hs1, hpf2.2.2.2.2, hpf1.2.2.2.2]
        have hfv : fVals s1 = fVals s := fVals_congr haddeq
        subst h3
        refine ⟨by rw [← h1]; simp [ih1], ?_, ?_, ?_, ?_, ?_⟩
        · rw [← h2, List.map_cons, hr2, ih2, hfv]
        · rw [ih3, haddeq]
        · rw [ih4, hs1, hpf2.1, hpf1.1]
        · rw [ih5, hs1, hpf2.2.1, hpf1.2.1]
        · rw [ih6, hs1, hpf2.2.2.1, hpf1.2.2.1]

lemma build_ok_elim {s : RState} {n : Nat} {stmts : List String} {s2 : RState}
    (h : build_insert_sql s n = .ok (stmts, s2)) :
    ∃ ts rows2 s3, namesM s = .ok (rstNamesList s, namesPost s) ∧
      processRows (namesPost s) (namesPost s).rows = .ok (ts, rows2, s3) ∧
      stmts = (chunk n ts).map (fun c =>
        "INSERT INTO " ++ s.table.name ++ " (" ++
          String.intercalate ","
            ((truthyNamesOf (rstNamesList s)).map (fun nm => "[" ++ nm ++ "]")) ++ ")" ++
          " VALUES" ++ String.intercalate "," c) ∧
      s2 = { s3 with rows := rows2 } := by
  unfold build_insert_sql at h
  cases hns : namesM s with
  | error e => rw [hns] at h; cases h
  | ok p =>
    obtain ⟨ns, s1⟩ := p
    simp only [hns] at h
    cases hpr : processRows s1 s1.rows with
    | error e => simp only [hpr] at h; cases h
    | ok q =>
      obtain ⟨ts, rows2, s3⟩ := q
      simp only [hpr] at h
      obtain ⟨hn, hs1⟩ := namesM_ok_elim hns
      subst hn hs1
      simp only [Except.ok.injEq, Prod.mk.injEq] at h
      exact ⟨ts, rows2, s3, rfl, hpr, h.1.symm, h.2.symm⟩

/-! ## C7, C6, C9 -/

/-- Failing input for C7: header `["a"]`, no mapping, one manual column. -/
def W7 : RState :=
  { header := some ["a"], rows := [], table := ⟨"t", [("a", 1), ("b", 1)]⟩,
    mapping := none, masks := [true], addCols := [⟨"f", "b", 1, some "v"⟩] }

/-- The state after one `names` query on `W7`: the csv header list, aliased
by `rst_names`, has been extended in place with the manual column name. -/
def W7x : RState :=
  { header := some ["a", "b"], rows := [], table := ⟨"t", [("a", 1), ("b", 1)]⟩,
    mapping := none, masks := [true], addCols := [⟨"f", "b", 1, some "v"⟩] }

/-- C7 evaluated at the failing input: with a header, no mapping and one
manual column, the first `names()` query succeeds but mutates the csv
header (the returned list is the header object, which `extend` grows), so
the second `names()` query — with no mutating operation in between — sees
the manual name twice and raises `CsvImporterError` instead of returning
the same result.  The queries are therefore neither pure nor idempotent on
this state, contradicting the claim. -/
theorem names_not_idempotent :
    namesM W7 = .ok ([some "a", some "b"], W7x) ∧
    namesM W7x = .error "Duplicate column name. a,b,b" ∧
    W7x.header ≠ W7.header := by
  refine ⟨by decide, by decide, by decide⟩

/-- State for C6: one table column of INT type and one manual column whose
type code is also INT (3). -/
def W6 : RState :=
  { header := none, rows := [], table := ⟨"t", [("c", 3)]⟩,
    mapping := none, masks := [true], addCols := [⟨"x", "d", 3, none⟩] }

/-- C6 counterexample: on `W6` the escape-flag sequence returned by
`escapes` is `[inl false, inl false, inr 3]` — its last entry is NOT a
boolean but the manual column's raw integer type code 3, appended by
`esc.extend(...)`; that entry is truthy under Python truthiness although
3 = INT is not in the escaped set {1, 4}.  So not every position of the
escape-flag sequence holds a boolean governed by the {CHAR, DATETIME}
rule, refuting the claim as stated. -/
theorem escapes_contains_raw_type_code :
    escapesM W6 = .ok ([Sum.inl false, Sum.inl false, Sum.inr 3], W6) ∧
    (Sum.inr 3 : EscE) ≠ Sum.inl true ∧ (Sum.inr 3 : EscE) ≠ Sum.inl false ∧
    truthyEsc (Sum.inr 3) = true ∧ escFlag (some 3) = false := by
  refine ⟨by decide, by decide, by decide, by decide, by decide⟩

/-- C6 amended: the escape-flag sequence decomposes as a boolean prefix —
one boolean per resolved type code, true exactly when the code is in the
escaped set {1 = CHAR, 4 = DATETIME}, so no other type code sets an escape
flag — followed by one appended entry per manual column holding that
column's raw integer type code (not a boolean). -/
theorem escapes_boolean_prefix (s : RState) (es : List EscE) (s1 : RState)
    (h : escapesM s = .ok (es, s1)) :
    ∃ tcs, typeCodesM s = .ok (tcs, s1) ∧
      es = tcs.map (fun tc => Sum.inl (escFlag tc)) ++
        s.addCols.map (fun c => Sum.inr c.type_code) ∧
      ∀ tc ∈ tcs, (escFlag tc = true ↔ ∃ c : Int, tc = some c ∧ (c = 1 ∨ c = 4)) := by
  obtain ⟨tcs, htc, hes⟩ := escapesM_ok_elim h
  refine ⟨tcs, htc, hes, ?_⟩
  intro tc _
  cases tc with
  | none => simp [escFlag]
  | some c =>
    simp only [escFlag, Bool.or_eq_true, beq_iff_eq, Option.some.injEq]
    constructor
    · intro hc
      exact ⟨c, rfl, hc⟩
    · rintro ⟨c', rfl, hc⟩
      exact hc

/-- Witness for C6's amended theorem at `W6`. -/
theorem escapes_boolean_prefix_witness :
    ∃ tcs, typeCodesM W6 = .ok (tcs, W6) ∧
      [Sum.inl false, Sum.inl false, Sum.inr 3] =
        tcs.map (fun tc => Sum.inl (escFlag tc)) ++
          W6.addCols.map (fun c => Sum.inr c.type_code) ∧
      ∀ tc ∈ tcs, (escFlag tc = true ↔ ∃ c : Int, tc = some c ∧ (c = 1 ∨ c = 4)) :=
  escapes_boolean_prefix W6 [Sum.inl false, Sum.inl false, Sum.inr 3] W6 rfl

/-- State for C9: one INT table column, one `'f'` manual column with value
`"9"`, one stored row `["1"]`. -/
def W9 : RState :=
  { header := none, rows := [[some "1"]], table := ⟨"t", [("a", 3)]⟩,
    mapping := none, masks := [true], addCols := [⟨"f", "b", 3, some "9"⟩] }

/-- `W9` after one full consumption of `build_insert_sql`. -/
def W9a : RState :=
  { header := none, rows := [[some "1", some "9"]], table := ⟨"t", [("a", 3)]⟩,
    mapping := none, masks := [true], addCols := [⟨"f", "b", 3, some "9"⟩] }

/-- `W9` after two full consumptions of `build_insert_sql`. -/
def W9b : RState :=
  { header := none, rows := [[some "1", some "9", some "9"]], table := ⟨"t", [("a", 3)]⟩,
    mapping := none, masks := [true], addCols := [⟨"f", "b", 3, some "9"⟩] }

/-- C9 counterexample to "not restartable with identical output": consuming
`build_insert_sql` once appends the manual value to the stored row (rows
become `[["1","9"]]`), and consuming it a second time appends it again
(rows become `[["1","9","9"]]`) — yet the second consumption emits exactly
the same statement list as the first, because rendering truncates each row
at the length of the reconciled column list.  The row store mutates, but
the SQL output of a restart is identical here. -/
theorem insert_sql_restart_identical :
    build_insert_sql W9 75 = .ok (["INSERT INTO t ([a],[b]) VALUES(1,9)"], W9a) ∧
    build_insert_sql W9a 75 = .ok (["INSERT INTO t ([a],[b]) VALUES(1,9)"], W9b) ∧
    W9a.rows ≠ W9.rows ∧ W9b.rows ≠ W9a.rows := by
  refine ⟨by decide, by decide, by decide, by decide⟩

/-- C9 amended: whenever `build_insert_sql` is consumed successfully, every
stored row is mutated in place — the final csv row store is the original
one with each `'f'` manual column's value appended to every row, in manual
addition order — and the manual-column list is unchanged, so a second
consumption appends the same values again; the statement output of that
second consumption, however, may coincide with the first (see the
counterexample), so only the row store is guaranteed to differ. -/
theorem insert_sql_appends_f_values (s : RState) (n : Nat) (stmts : List String)
    (s2 : RState) (h : build_insert_sql s n = .ok (stmts, s2)) :
    s2.rows = s.rows.map (fun r => r ++ fVals s) ∧ s2.addCols = s.addCols := by
  obtain ⟨ts, rows2, s3, hns, hpr, hst, hs2⟩ := build_ok_elim h
  have hpf := namesPost_fields s
  obtain ⟨hlen, hrows2, hadd, _, _, _⟩ := processRows_ok_elim _ _ _ _ _ hpr
  have hfv : fVals (namesPost s) = fVals s := fVals_congr hpf.2.2.2.2
  constructor
  · rw [hs2]
    show rows2 = _
    rw [hrows2, hpf.1, hfv]
  · rw [hs2]
    show s3.addCols = _
    rw [hadd, hpf.2.2.2.2]

/-- Witness for C9's amended theorem: one consumption on `W9` appends the
`'f'` value to the stored row. -/
theorem insert_sql_appends_f_values_witness :
    W9a.rows = W9.rows.map (fun r => r ++ fVals W9) ∧ W9a.addCols = W9.addCols :=
  insert_sql_appends_f_values W9 75 ["INSERT INTO t ([a],[b]) VALUES(1,9)"] W9a (by decide)

/-! ## Chunk partition lemmas and C2 -/

lemma chunk_flatten_aux {α : Type} (n : Nat) (hn : n ≠ 0) :
    ∀ (k : Nat) (l : List α), l.length ≤ k → (chunk n l).flatten = l := by
  intro k
  induction k with
  | zero =>
    intro l hl
    have : l = [] := List.length_eq_zero.mp (Nat.le_zero.mp hl)
    subst this
    rfl
  | succ k ih =>
    intro l hl
    rcases eq_or_ne l [] with rfl | hne
    · rfl
    · rw [chunk_cons n l hne hn, List.flatten_cons]
      rw [ih (l.drop n) ?_, List.take_append_drop]
      have hpos : 0 < l.length := List.length_pos.mpr hne
      have hnpos : 0 < n := Nat.pos_of_ne_zero hn
      simp only [List.length_drop]
      omega

lemma chunk_flatten {α : Type} (n : Nat) (hn : n ≠ 0) (l : List α) :
    (chunk n l).flatten = l :=
  chunk_flatten_aux n hn l.length l le_rfl

lemma chunk_size_aux {α : Type} (n : Nat) (hn : n ≠ 0) :
    ∀ (k : Nat) (l : List α), l.length ≤ k → ∀ g ∈ chunk n l, g.length ≤ n := by
  intro k
  induction k with
  | zero =>
    intro l hl g hg
    have : l = [] := List.length_eq_zero.mp (Nat.le_zero.mp hl)
    subst this
    simp [chunk_nil] at hg
  | succ k ih =>
    intro l hl g hg
    rcases eq_or_ne l [] with rfl | hne
    · simp [chunk_nil] at hg
    · rw [chunk_cons n l hne hn] at hg
      rcases List.mem_cons.mp hg with rfl | hg2
      · rw [List.length_take]
        exact min_le_left n l.length
      · refine ih (l.drop n) ?_ g hg2
        have hpos : 0 < l.length := List.length_pos.mpr hne
        have hnpos : 0 < n := Nat.pos_of_ne_zero hn
        simp only [List.length_drop]
        omega

lemma chunk_size_le {α : Type} (n : Nat) (hn : n ≠ 0) (l : List α) :
    ∀ g ∈ chunk n l, g.length ≤ n :=
  chunk_size_aux n hn l.length l le_rfl

lemma chunk_75_170 {α : Type} (l : List α) (hl : l.length = 170) :
    (chunk 75 l).map List.length = [75, 75, 20] := by
  have h1 : l ≠ [] := by
    intro h
    rw [h] at hl
    simp at hl
  have hd1 : (l.drop 75).length = 95 := by rw [List.length_drop, hl]
  have h2 : l.drop 75 ≠ [] := by
    intro h
    rw [h] at hd1
    simp at hd1
  have hd2 : ((l.drop 75).drop 75).length = 20 := by rw [List.length_drop, hd1]
  have h3 : (l.drop 75).drop 75 ≠ [] := by
    intro h
    rw [h] at hd2
    simp at hd2
  have hd3 : (((l.drop 75).drop 75).drop 75).length = 0 := by rw [List.length_drop, hd2]
  have h4 : ((l.drop 75).drop 75).drop 75 = [] := List.length_eq_zero.mp hd3
  rw [chunk_cons 75 l h1 (by decide), chunk_cons 75 _ h2 (by decide),
    chunk_cons 75 _ h3 (by decide), h4, chunk_nil]
  simp only [List.map_cons, List.map_nil, List.length_take, hl, hd1, hd2]
  decide

/-- C2: whenever `build_insert_sql` with chunk size 75 is consumed
successfully on 170 stored rows, it yields exactly 3 statements; the
rendered tuples `ts` (one per row, in row order — their count equals the
row count) are partitioned by `chunk` into consecutive positional groups
whose value-group counts are `[75, 75, 20]`; concatenating the groups in
order gives back `ts` unchanged (no reordering within or across chunks),
every group has at most 75 tuples, and each statement is one
`INSERT INTO <table> (cols) VALUES (...),(...)` string built from one
group. -/
theorem build_insert_sql_chunks (s : RState) (stmts : List String) (s2 : RState)
    (h : build_insert_sql s 75 = .ok (stmts, s2)) (hl : s.rows.length = 170) :
    stmts.length = 3 ∧
    ∃ pre ts, ts.length = 170 ∧
      (chunk 75 ts).map List.length = [75, 75, 20] ∧
      (chunk 75 ts).flatten = ts ∧
      (∀ g ∈ chunk 75 ts, g.length ≤ 75) ∧
      pre = "INSERT INTO " ++ s.table.name ++ " (" ++
        String.intercalate ","
          ((truthyNamesOf (rstNamesList s)).map (fun nm => "[" ++ nm ++ "]")) ++ ")" ∧
      stmts = (chunk 75 ts).map (fun c => pre ++ " VALUES" ++ String.intercalate "," c) := by
  obtain ⟨ts, rows2, s3, hns, hpr, hst, hs2⟩ := build_ok_elim h
  have hpf := namesPost_fields s
  obtain ⟨hlen, _, _, _, _, _⟩ := processRows_ok_elim _ _ _ _ _ hpr
  have hts : ts.length = 170 := by rw [hlen, hpf.1, hl]
  have hmap := chunk_75_170 ts hts
  refine ⟨?_, _, ts, hts, hmap, chunk_flatten 75 (by decide) ts,
    chunk_size_le 75 (by decide) ts, rfl, hst⟩
  rw [hst, List.length_map]
  have h3 := congrArg List.length hmap
  simpa using h3

/-- Concrete 170-row state for the C2 witness. -/
def W2 : RState :=
  { header := none, rows := List.replicate 170 [some "1"], table := ⟨"t", [("c", 3)]⟩,
    mapping := none, masks := [true], addCols := [] }

set_option maxRecDepth 8000 in
/-- Witness for C2: on 170 concrete rows the run succeeds and yields exactly
3 statements. -/
theorem build_insert_sql_chunks_witness :
    ∃ stmts s2, build_insert_sql W2 75 = .ok (stmts, s2) ∧ stmts.length = 3 := by
  have hok : exceptOk (build_insert_sql W2 75) = true := by decide
  cases hb : build_insert_sql W2 75 with
  | error e =>
    rw [hb] at hok
    exact absurd hok (by simp [exceptOk])
  | ok p =>
    obtain ⟨stmts, s2⟩ := p
    exact ⟨stmts, s2, rfl, (build_insert_sql_chunks W2 stmts s2 hb (by decide)).1⟩

/-! ## Counting lemmas and C10 -/

lemma truthyNamesOf_length (ns : List (Option String)) :
    (truthyNamesOf ns).length = ns.countP truthyName := by
  induction ns with
  | nil => rfl
  | cons n t ih =>
    unfold truthyNamesOf at ih ⊢
    rw [List.filterMap_cons, List.countP_cons]
    cases hn : truthyName n with
    | false => simp [hn, ih]
    | true =>
      cases n with
      | none => simp [truthyName] at hn
      | some v => simp [hn, ih]

lemma zip3_filterMap_length (row : List (Option String)) :
    ∀ (ns : List (Option String)) (es : List EscE),
      row.length ≤ ns.length → row.length ≤ es.length →
      ((zip3 row ns es).filterMap
        (fun p => if truthyName p.2.1 then some (_escape p.1 (truthyEsc p.2.2)) else none)).length
        = (ns.take row.length).countP truthyName := by
  induction row with
  | nil =>
    intro ns es _ _
    simp [zip3]
  | cons a r ih =>
    intro ns es h1 h2
    cases ns with
    | nil => simp at h1
    | cons b nss =>
      cases es with
      | nil => simp at h2
      | cons c ess =>
        have h1' : r.length ≤ nss.length := by simpa using h1
        have h2' : r.length ≤ ess.length := by simpa using h2
        simp only [zip3, List.filterMap_cons, List.length_cons, List.take_succ_cons,
          List.countP_cons]
        cases hb : truthyName b with
        | false => simp [hb, ih nss ess h1' h2']
        | true => simp [hb, ih nss ess h1' h2']

lemma tcLookup_append_self (l : List (String × Int)) (k : String) (v : Int) :
    tcLookup (l ++ [(k, v)]) k = some v := by
  unfold tcLookup
  rw [List.reverse_append]
  show (((k, v) :: l.reverse).find? (fun p => p.1 == k)).map Prod.snd = some v
  rw [List.find?_cons_of_pos _ (by simp)]
  rfl

lemma rstNamesList_namesPost_length (s : RState) :
    (rstNamesList s).length ≤ (rstNamesList (namesPost s)).length := by
  unfold namesPost
  cases hcond : (!mappingTruthy s.mapping && headerTruthy s.header) with
  | false => simp [hcond]
  | true =>
    simp only [hcond, if_true]
    have hm : mappingTruthy s.mapping = false := by
      cases hmt : mappingTruthy s.mapping
      · rfl
      · rw [hmt] at hcond
        simp at hcond
    have hh : headerTruthy s.header = true := by
      cases hht : headerTruthy s.header
      · rw [hht] at hcond
        simp at hcond
      · rfl
    cases hhd : s.header with
    | none =>
      rw [hhd] at hh
      simp [headerTruthy] at hh
    | some h0 =>
      have h0ne : h0 ≠ [] := by
        rw [hhd] at hh
        simpa [headerTruthy, List.isEmpty_iff] using hh
      simp only [hhd, Option.getD_some]
      have e1 : rstNamesList s = h0.map some ++ s.addCols.map (fun c => some c.name) := by
        unfold rstNamesList
        rw [if_neg (by rw [hm]; simp), if_pos hh, hhd]
        rfl
      have happ : h0 ++ s.addCols.map (fun c => c.name) ≠ [] := by
        intro hx
        exact h0ne (List.append_eq_nil.mp hx).1
      have e2 : rstNamesList { s with header := some (h0 ++ s.addCols.map (fun c => c.name)) } =
          (h0 ++ s.addCols.map (fun c => c.name)).map some ++
            s.addCols.map (fun c => some c.name) := by
        unfold rstNamesList
        rw [if_neg (by rw [hm]; simp), if_pos (by simp [headerTruthy, List.isEmpty_iff, happ])]
        rfl
      rw [e1, e2]
      simp only [List.length_append, List.length_map]
      omega

/-- C10: with exactly one manually added column whose option is not `'f'`
(non-empty name), and a row of full source width (one fewer entry than the
reconciled name list), rendering the row leaves it unmutated (its value is
never appended), yet the column's name is still the last entry of the
reconciled names (hence listed in the INSERT column clause) and its type
code the last entry of `type_codes`; consequently the rendered VALUES
tuple holds exactly one fewer value than the number of listed (truthy)
columns. -/
theorem manual_non_f_column (s : RState) (c : AddCol) (row : List (Option String))
    (t : String) (r2 : List (Option String)) (s2 : RState)
    (hadd : s.addCols = [c]) (hopt : c.option ≠ "f") (hname : c.name ≠ "")
    (hrow : row.length + 1 = (rstNamesList s).length)
    (h : convertM s row = .ok (t, r2, s2)) :
    r2 = row ∧
    (rstNamesList s).getLast? = some (some c.name) ∧
    (∀ tcs s3, typeCodesM s = .ok (tcs, s3) → tcs.getLast? = some (some c.type_code)) ∧
    ∃ items : List String, t = "(" ++ String.intercalate "," items ++ ")" ∧
      items.length + 1 = (truthyNamesOf (rstNamesList s)).length := by
  have hfv : fVals s = [] := by
    unfold fVals
    rw [hadd]
    simp [hopt]
  obtain ⟨hr2, hs2, es, hesc, hnsok, ht⟩ := convertM_ok_elim h
  obtain ⟨base, hb⟩ : ∃ base : List (Option String),
      rstNamesList s = base ++ [some c.name] :=
    ⟨_, by unfold rstNamesList; rw [hadd]; rfl⟩
  have hlast : (rstNamesList s).getLast? = some (some c.name) := by
    rw [hb]
    exact List.getLast?_concat base
  have hbl : base.length = row.length := by
    have hx := congrArg List.length hb
    rw [← hrow] at hx
    simp only [List.length_append, List.length_cons, List.length_nil] at hx
    omega
  obtain ⟨tcs1, htc1, hes1⟩ := escapesM_ok_elim hesc
  obtain ⟨htcs1, _⟩ := typeCodesM_ok_elim htc1
  have hpf := namesPost_fields s
  have hlen_es : es.length = (rstNamesList (namesPost s)).length + 1 := by
    rw [hes1, List.length_append, List.length_map, htcs1, List.length_map,
      hpf.2.2.2.2, hadd]
    rfl
  have hmono := rstNamesList_namesPost_length s
  refine ⟨by rw [hr2, hfv, List.append_nil], hlast, ?_, ?_⟩
  · intro tcs s3 htc
    obtain ⟨htcs, _⟩ := typeCodesM_ok_elim htc
    rw [htcs, List.getLast?_map, hlast]
    simp only [Option.map_some', hadd, List.map_cons, List.map_nil]
    rw [tcLookup_append_self]
  · refine ⟨_, ht, ?_⟩
    rw [hfv, List.append_nil]
    rw [zip3_filterMap_length row (rstNamesList s) es (by omega) (by omega)]
    rw [truthyNamesOf_length, hb, ← hbl, List.take_left, List.countP_append]
    have hc1 : List.countP truthyName [some c.name] = 1 := by
      simp [List.countP_cons, truthyName, hname]
    rw [hc1]

/-- State for the C10 witness: one INT table column, one manual column with
option `"x"` (not `'f'`). -/
def W10 : RState :=
  { header := none, rows := [[some "1"]], table := ⟨"t", [("a", 3)]⟩,
    mapping := none, masks := [true], addCols := [⟨"x", "b", 1, some "v"⟩] }

/-- Witness for C10: the manual name `b` is listed last, but the rendered
tuple `(1)` holds 1 value while 2 columns are listed. -/
theorem manual_non_f_column_witness :
    (rstNamesList W10).getLast? = some (some "b") ∧
    ∃ items : List String, "(1)" = "(" ++ String.intercalate "," items ++ ")" ∧
      items.length + 1 = (truthyNamesOf (rstNamesList W10)).length := by
  have h := manual_non_f_column W10 ⟨"x", "b", 1, some "v"⟩ [some "1"] "(1)" [some "1"] W10
    rfl (by decide) (by decide) (by decide) (by decide)
  exact ⟨h.2.1, h.2.2.2⟩
